import Mathlib

/-
Verification of the lefiya-schedule-bot roster/scheduling core
(src/main.py) against its natural-language specification.

The embedding models the Python code shallowly:
- JSON-like dynamic values (as produced by json.load / the menu API)
  become the inductive type JValue;
- Python subscripting, len(), slicing, iteration, truthiness and the
  `in` operator become total Lean functions returning Option where the
  Python operation can raise a caught exception, with the exception
  class tracked (PyErr) where an uncaught exception matters;
- exceptions that escape a function are modeled with Except PyErr;
- Python's stable list.sort(key=...) is modeled by a stable insertion
  sort (any two stable sorts on the same key agree pointwise, so this
  is observationally the same function);
- wall-clock readings (datetime.now) and the outcomes of the two
  network collaborators become explicit parameters, so one evaluation
  cycle is a pure function of those inputs.
-/

set_option maxRecDepth 10000

namespace LefiyaBot

/-- Python exception classes that the program raises or catches. -/
inductive PyErr where
  | keyError
  | typeError
  | valueError
  | attributeError
deriving DecidableEq

/-- JSON-like dynamic value, as returned by json.load and handed around
the program. Strings are lists of unicode characters. JSON objects are
association lists with (as after json.load) pairwise distinct keys;
JSON booleans and non-integer numbers do not occur in any data the
claims concern and are not modeled. -/
inductive JValue where
  | null
  | num (n : Int)
  | str (s : List Char)
  | list (xs : List JValue)
  | obj (fields : List (List Char × JValue))

/-- Python truthiness of a value (`if not x`). -/
def truthy : JValue → Bool
  | .null => false
  | .num n => n != 0
  | .str s => !s.isEmpty
  | .list xs => !xs.isEmpty
  | .obj fs => !fs.isEmpty

/-- First binding of a key in an association list (json.load leaves
keys distinct, so first = only). -/
def lookupF : List (List Char × JValue) → List Char → Option JValue
  | [], _ => none
  | (k', v) :: rest, k => if k' = k then some v else lookupF rest k

/-- Python subscripting `v[k]` with a string key. On a dict it raises
KeyError when the key is missing; on any non-dict it raises TypeError.
Both classes are caught by the parser, so the result is an Option. -/
def getKey? (v : JValue) (k : List Char) : Option JValue :=
  match v with
  | .obj fs => lookupF fs k
  | _ => none

/-- Python `d.get(k, dflt)`. Only called on values already known to be
dicts (a non-dict would raise AttributeError, unreachable in the code
paths below because a successful `category["name"]` implies a dict). -/
def dictGetD (v : JValue) (k : List Char) (dflt : JValue) : JValue :=
  match v with
  | .obj fs => (lookupF fs k).getD dflt
  | _ => dflt

/-- Python `len(v)`: defined on str, list and dict; raises TypeError
(caught by the parser) on int/None. -/
def pyLen? : JValue → Option Nat
  | .str s => some s.length
  | .list xs => some xs.length
  | .obj fs => some fs.length
  | _ => none

/-- Python `v[:8]`: defined on str and list; raises TypeError on other
values (caught by the parser). -/
def pySlice8? : JValue → Option JValue
  | .str s => some (.str (s.take 8))
  | .list xs => some (.list (xs.take 8))
  | _ => none

/-- Python iteration `for x in v`: a list yields its elements, a string
its one-character strings, a dict its keys; int/None raise TypeError
(caught by the parser). -/
def pyIterTotal : JValue → Option (List JValue)
  | .list xs => some xs
  | .str s => some (s.map (fun c => .str [c]))
  | .obj fs => some (fs.map (fun p => .str p.1))
  | _ => none

/-- Whether the pattern kw occurs at the head of s. -/
def startsWithL : List Char → List Char → Bool
  | [], _ => true
  | _ :: _, [] => false
  | a :: as, b :: bs => a == b && startsWithL as bs

/-- Python substring test `kw in s` on strings: kw occurs contiguously
in s (the empty pattern always occurs). -/
def containsSub (s kw : List Char) : Bool :=
  startsWithL kw s ||
    match s with
    | [] => false
    | _ :: t => containsSub t kw

/-- The Schedule enum: three shift categories. Python's Enum iterates
members in declaration order: DAY, ALL, NIGHT. -/
inductive Schedule where
  | DAY
  | ALL
  | NIGHT
deriving DecidableEq

/-- Per-member keyword payload: DAY = "午安", ALL = "午晚安",
NIGHT = "晚安". -/
def Schedule.keyword : Schedule → List Char
  | .DAY => "午安".data
  | .ALL => "午晚安".data
  | .NIGHT => "晚安".data

/-- Per-member emoji payload. -/
def Schedule.emoji : Schedule → List Char
  | .DAY => "☀️".data
  | .ALL => "🌍".data
  | .NIGHT => "🌙".data

/-- Per-member sort order payload. -/
def Schedule.order : Schedule → Nat
  | .DAY => 1
  | .ALL => 2
  | .NIGHT => 3

/-- Enum members in declaration (= iteration) order. -/
def Schedule.values : List Schedule := [.DAY, .ALL, .NIGHT]

/-- The loop body of Schedule.from_name over the member list. -/
def fromNameGo (name : List Char) : List Schedule → Schedule
  | [] => .NIGHT
  | s :: rest => if containsSub name s.keyword then s else fromNameGo name rest

/-- Schedule.from_name(name) for a str argument: first enum member
whose keyword occurs in the name, defaulting to NIGHT. -/
def Schedule.from_name (name : List Char) : Schedule :=
  fromNameGo name Schedule.values

/-- Python `x == kw` where kw is a string literal: true only for an
equal string. -/
def pyEqStr (v : JValue) (kw : List Char) : Bool :=
  match v with
  | .str s => s = kw
  | _ => false

/-- Python `kw in v` for arbitrary v: substring test on str, membership
on list, key membership on dict; TypeError (caught) on int/None. -/
def pyContains? (v : JValue) (kw : List Char) : Option Bool :=
  match v with
  | .str s => some (containsSub s kw)
  | .list xs => some (xs.any (fun x => pyEqStr x kw))
  | .obj fs => some (fs.any (fun p => p.1 = kw))
  | _ => none

/-- Schedule.from_name applied to a dynamic (possibly non-str) value,
as the parser does; none = the containment test raised TypeError. -/
def fromNameVGo (v : JValue) : List Schedule → Option Schedule
  | [] => some .NIGHT
  | s :: rest =>
    match pyContains? v s.keyword with
    | none => none
    | some true => some s
    | some false => fromNameVGo v rest

/-- Dynamic version of Schedule.from_name. -/
def from_nameV (v : JValue) : Option Schedule :=
  fromNameVGo v Schedule.values

/-- A Fairy: the name as extracted from the item (a dynamic value, the
code never coerces it) and the assigned schedule. -/
structure Fairy where
  name : JValue
  schedule : Schedule

/-- One step of the stable insertion sort by schedule.order: insert f
before the first element whose order is not smaller. -/
def insertF (f : Fairy) : List Fairy → List Fairy
  | [] => [f]
  | g :: gs => if g.schedule.order < f.schedule.order then g :: insertF f gs else f :: g :: gs

/-- Stable sort by schedule.order, modeling the stable
fairies.sort(key=lambda f: f.schedule.order). -/
def sortFairies : List Fairy → List Fairy
  | [] => []
  | f :: fs => insertF f (sortFairies fs)

/-- Outcome of the item loop of one category: completed or aborted by a
caught exception; either way it carries the fairies accumulated so far
(the Python list is mutated in place). -/
inductive IRes where
  | ok (fs : List Fairy)
  | abort (fs : List Fairy)

/-- `for item in ...: fairies.append(Fairy(item["name"], schedule))`.
A failing item["name"] raises (KeyError/TypeError), caught at the
_parse_fairies level with the list as accumulated so far. -/
def itemsLoop : List JValue → List Fairy → Schedule → IRes
  | [], fs, _ => .ok fs
  | it :: rest, fs, sch =>
    match getKey? it "name".data with
    | none => .abort fs
    | some nv => itemsLoop rest (fs ++ [⟨nv, sch⟩]) sch

/-- Outcome of the category loop: done (all categories processed) or
aborted by a caught exception, carrying the accumulated fairies and
date at the moment the exception was raised. -/
inductive PRes where
  | done (fs : List Fairy) (d : JValue)
  | aborted (fs : List Fairy) (d : JValue)

/-- The category loop of _parse_fairies, with the date update performed
before classification, exactly as in the source:

    name = category["name"]
    if not date and len(name) >= 8:
        date = name[:8]
    schedule = Schedule.from_name(name)
    for item in category.get("menuItemSnapshot", []):
        fairies.append(Fairy(item["name"], schedule))
-/
def loopC : List JValue → List Fairy → JValue → PRes
  | [], fs, d => .done fs d
  | c :: cs, fs, d =>
    match getKey? c "name".data with
    | none => .aborted fs d
    | some nameV =>
      let dRes : Option JValue :=
        if truthy d then some d
        else
          match pyLen? nameV with
          | none => none
          | some n => if 8 ≤ n then pySlice8? nameV else some d
      match dRes with
      | none => .aborted fs d
      | some d' =>
        match from_nameV nameV with
        | none => .aborted fs d'
        | some sch =>
          match pyIterTotal (dictGetD c "menuItemSnapshot".data (.list [])) with
          | none => .aborted fs d'
          | some items =>
            match itemsLoop items fs sch with
            | .abort fs' => .aborted fs' d'
            | .ok fs' => loopC cs fs' d'

/-- data["data"]["restaurant"]["menu"]["categoriesSnapshot"]; any
failure raises KeyError/TypeError, caught with nothing accumulated. -/
def catsPath (data : JValue) : Option JValue := do
  let a ← getKey? data "data".data
  let b ← getKey? a "restaurant".data
  let c ← getKey? b "menu".data
  getKey? c "categoriesSnapshot".data

/-- ScheduleBot._parse_fairies. The try block accumulates fairies and
date; KeyError/TypeError anywhere inside is caught and the accumulated
values are returned as they stand (the sort only runs when the loop
completed, since it is the last statement of the try block). -/
def parse_fairies (data : JValue) : List Fairy × JValue :=
  match catsPath data with
  | none => ([], .str [])
  | some catsV =>
    match pyIterTotal catsV with
    | none => ([], .str [])
    | some cats =>
      match loopC cats [] (.str []) with
      | .done fs d => (sortFairies fs, d)
      | .aborted fs d => (fs, d)

mutual
/-- Python repr of a JSON-like value (str() of a non-str container
falls back to repr of its parts); escaping inside strings is not
modeled (no claim concerns names with quotes). -/
def reprJ : JValue → List Char
  | .null => "None".data
  | .num n => (toString n).data
  | .str s => '\x27' :: s ++ ['\x27']
  | .list xs => '[' :: reprListJ xs ++ [']']
  | .obj fs => '\x7b' :: reprFieldsJ fs ++ ['\x7d']

/-- Comma-joined reprs of list elements. -/
def reprListJ : List JValue → List Char
  | [] => []
  | [x] => reprJ x
  | x :: y :: rest => reprJ x ++ ", ".data ++ reprListJ (y :: rest)

/-- Comma-joined reprs of dict entries. -/
def reprFieldsJ : List (List Char × JValue) → List Char
  | [] => []
  | [(k, v)] => '\x27' :: k ++ '\x27' :: ": ".data ++ reprJ v
  | (k, v) :: y :: rest =>
    '\x27' :: k ++ '\x27' :: ": ".data ++ reprJ v ++ ", ".data ++ reprFieldsJ (y :: rest)
end

/-- Python str(v), as used by f-string interpolation: a str passes
through verbatim, other values render as their repr/str form. -/
def pyStr : JValue → List Char
  | .str s => s
  | .num n => (toString n).data
  | .null => "None".data
  | .list xs => reprJ (.list xs)
  | .obj fs => reprJ (.obj fs)

/-- ScheduleBot._get_opening_hours, with the weekend flag
(datetime.now().weekday() >= 5 at the call site) made an input. -/
def get_opening_hours (is_weekend : Bool) : List Char :=
  if is_weekend then
    "\n今日營運時間：\n☀️：12:00 ~ 17:00\n🌍：12:00 ~ 22:00\n🌙：17:00 ~ 22:00\n".data
  else
    "\n今日營運時間：\n☀️：14:00 ~ 18:00\n🌍：14:00 ~ 22:00\n🌙：18:00 ~ 22:00\n".data

/-- ScheduleBot.format_message. -/
def format_message (fairies : List Fairy) (date : JValue) (is_weekend : Bool) : List Char :=
  let m := pyStr date ++ " 出勤的小精靈有：\n\n".data
  let m := fairies.foldl
    (fun acc f => acc ++ pyStr f.name ++ " ".data ++ f.schedule.emoji ++ "\n".data) m
  m ++ get_opening_hours is_weekend
    ++ "實際班表以現場為準\n\n線上點拍連結：\nhttps://order.lefiya.com".data

/-- Whitespace for Python int()'s stripping of a string argument. -/
def isPyWs (c : Char) : Bool :=
  c == ' ' || c == '\t' || c == '\n' || c == '\r' || c == '\x0b' || c == '\x0c'

/-- Digit-string value accumulator. -/
def digitsValGo (acc : Nat) : List Char → Option Nat
  | [] => some acc
  | c :: cs => if c.isDigit then digitsValGo (acc * 10 + (c.toNat - '0'.toNat)) cs else none

/-- Value of a nonempty ASCII digit string. -/
def digitsVal : List Char → Option Nat
  | [] => none
  | l => digitsValGo 0 l

/-- Python int(s) for a str argument: strip whitespace, optional sign,
nonempty digits; none = ValueError. (Underscore digit grouping and
non-ASCII digits are not modeled; no claim involves them.) -/
def pyIntOfStr (s : List Char) : Option Int :=
  let t := ((s.dropWhile isPyWs).reverse.dropWhile isPyWs).reverse
  match t with
  | '+' :: r => (digitsVal r).map (fun n => (n : Int))
  | '-' :: r => (digitsVal r).map (fun n => -(n : Int))
  | r => (digitsVal r).map (fun n => (n : Int))

/-- Python int(v) on a dynamic value: ints pass through, strings are
parsed (ValueError on failure), anything else raises TypeError. -/
def pyInt (v : JValue) : Except PyErr Int :=
  match v with
  | .num n => .ok n
  | .str s =>
    match pyIntOfStr s with
    | some n => .ok n
    | none => .error .valueError
  | _ => .error .typeError

/-- A wall-clock reading: weekday (Python convention Monday = 0 ...
Sunday = 6), hour, minute. -/
structure DT where
  weekday : Fin 7
  hour : Nat
  minute : Nat
deriving DecidableEq

/-- ScheduleBot._is_send_time (the log print has no effect on the
returned value). -/
def is_send_time (dt : DT) : Bool :=
  let is_weekend := decide (5 ≤ dt.weekday.val)
  if is_weekend then
    (dt.hour == 11 && 40 < dt.minute) || (dt.hour == 12 && dt.minute < 59)
  else
    (dt.hour == 13 && 40 < dt.minute) || (dt.hour == 14 && dt.minute < 59)

/-- State of record.json as seen by _is_new_day: the file is missing,
or json.load raises JSONDecodeError, or it parses to a JSON value. -/
inductive RecordFile where
  | missing
  | invalidJson
  | json (v : JValue)

/-- ScheduleBot._is_new_day, with today's YYYYMMDD number (which
int(strftime("%Y%m%d")) always yields) as a parameter. Only
JSONDecodeError and ValueError are caught; record.get on a non-dict
raises AttributeError and int() of a non-int/str date raises TypeError,
both escaping the method. -/
def is_new_day (rec : RecordFile) (today : Int) : Except PyErr Bool :=
  match rec with
  | .missing => .ok true
  | .invalidJson => .ok true
  | .json v =>
    match v with
    | .obj fs =>
      match pyInt ((lookupF fs "date".data).getD (.num 0)) with
      | .ok n => .ok (decide (n < today))
      | .error .valueError => .ok true
      | .error e => .error e
    | _ => .error .attributeError

/-- ScheduleBot.should_send: new-day check and-then time-window check
(is_send_time is pure, so Python's short-circuit and Lean's && agree). -/
def should_send (rec : RecordFile) (today : Int) (dt : DT) : Except PyErr Bool :=
  match is_new_day rec today with
  | .error e => .error e
  | .ok nd => .ok (nd && is_send_time dt)

/-- The environment one evaluation cycle runs in: whether
fetch_menu_hours yielded no uuids (its failure mode), the raw data
fetch_menu_items returned, today's YYYYMMDD number, the weekend flag of
the clock, and whether send_message reports success. -/
structure Env where
  uuidsEmpty : Bool
  data : JValue
  today : Int
  isWeekend : Bool
  sendOk : Bool

/-- ScheduleBot.get_fairies: empty uuid list short-circuits to
([], ""); otherwise the fetched data is parsed. -/
def get_fairies (env : Env) : List Fairy × JValue :=
  if env.uuidsEmpty then ([], .str []) else parse_fairies env.data

/-- The observable effects of one run_once call: the message handed to
send_message (none = no delivery attempt) and the date written to
record.json by update_record (none = record untouched). An .error
result is an exception escaping run_once; it occurs before any send or
write (int(date) precedes both). -/
structure CycleResult where
  sent : Option (List Char)
  recordWrite : Option JValue

/-- ScheduleBot.run_once. -/
def run_once (env : Env) : Except PyErr CycleResult :=
  let fd := get_fairies env
  if fd.1.isEmpty || !truthy fd.2 then .ok ⟨none, none⟩
  else
    match pyInt fd.2 with
    | .error e => .error e
    | .ok d =>
      if d < env.today then .ok ⟨none, none⟩
      else
        let msg := format_message fd.1 fd.2 env.isWeekend
        if env.sendOk then .ok ⟨some msg, some fd.2⟩ else .ok ⟨some msg, none⟩

/-- A well-formed menu category for building test inputs: a label and
optionally (when the menuItemSnapshot key is present) its item names. -/
structure Cat where
  label : List Char
  items : Option (List (List Char))
deriving DecidableEq

/-- A menu item object. -/
def itemJ (n : List Char) : JValue := .obj [("name".data, .str n)]

/-- A category object, with menuItemSnapshot present iff items is. -/
def catJ (c : Cat) : JValue :=
  .obj (("name".data, .str c.label) ::
    match c.items with
    | none => []
    | some is => [("menuItemSnapshot".data, .list (is.map itemJ))])

/-- The nested wrapper of the menu API response. -/
def mkInputJ (cats : List JValue) : JValue :=
  .obj [("data".data,
    .obj [("restaurant".data,
      .obj [("menu".data,
        .obj [("categoriesSnapshot".data, .list cats)])])])]

/-- A fully well-formed API response built from categories. -/
def mkInputC (cs : List Cat) : JValue := mkInputJ (cs.map catJ)

/-- The fairies one well-formed category contributes, in item order. -/
def flattenC (c : Cat) : List Fairy :=
  (c.items.getD []).map (fun n => ⟨.str n, Schedule.from_name c.label⟩)

/-- One date-update step of the category loop. -/
def dstep (d : JValue) (c : Cat) : JValue :=
  if truthy d then d
  else if 8 ≤ c.label.length then .str (c.label.take 8) else d

/-- The accumulated date after folding the date-update over cats. -/
def dComb (d : JValue) (cs : List Cat) : JValue := cs.foldl dstep d

/-- First-wins extracted date of a label sequence: first 8 characters
of the first label of length at least 8, else the empty string. -/
def firstDate (ls : List (List Char)) : JValue :=
  match ls.find? (fun l => 8 ≤ l.length) with
  | some l => .str (l.take 8)
  | none => .str []

/-- The fairies a category contributes when its classification is s,
and nothing otherwise (used to state order-independence of the sort). -/
def gsel (s : Schedule) (c : Cat) : List Fairy :=
  if Schedule.from_name c.label = s then flattenC c else []

/-! ### Helper lemmas -/

theorem from_nameV_str (s : List Char) : from_nameV (.str s) = some (Schedule.from_name s) := by
  cases h1 : containsSub s Schedule.DAY.keyword <;>
    cases h2 : containsSub s Schedule.ALL.keyword <;>
      cases h3 : containsSub s Schedule.NIGHT.keyword <;>
        simp [from_nameV, Schedule.from_name, Schedule.values, fromNameVGo, fromNameGo,
          pyContains?, h1, h2, h3]

theorem itemsLoop_wf (sch : Schedule) :
    ∀ (ns : List (List Char)) (fs : List Fairy),
      itemsLoop (ns.map itemJ) fs sch = .ok (fs ++ ns.map (fun n => ⟨.str n, sch⟩)) := by
  intro ns
  induction ns with
  | nil => intro fs; simp [itemsLoop]
  | cons n rest ih =>
    intro fs
    have hk : getKey? (itemJ n) "name".data = some (.str n) := rfl
    simp only [List.map_cons, itemsLoop, hk, ih]
    simp

theorem loopC_catJ (c : Cat) (cs : List JValue) (fs : List Fairy) (d : JValue) :
    loopC (catJ c :: cs) fs d = loopC cs (fs ++ flattenC c) (dstep d c) := by
  have hname : getKey? (catJ c) "name".data = some (.str c.label) := rfl
  have hitems : pyIterTotal (dictGetD (catJ c) "menuItemSnapshot".data (.list [])) =
      some ((c.items.getD []).map itemJ) := by
    cases h : c.items <;> simp only [catJ, dictGetD, h] <;> rfl
  have hlen : pyLen? (JValue.str c.label) = some c.label.length := rfl
  have hslice : pySlice8? (JValue.str c.label) = some (.str (c.label.take 8)) := rfl
  simp only [loopC, hname, hlen, hslice, from_nameV_str, hitems, itemsLoop_wf]
  by_cases hd : truthy d
  · simp only [hd, if_true, itemsLoop_wf, dstep, flattenC]
  · by_cases hl : 8 ≤ c.label.length
    · simp only [hd, if_false, hl, if_true, Bool.false_eq_true, itemsLoop_wf, dstep, flattenC]
    · simp only [hd, if_false, hl, Bool.false_eq_true, itemsLoop_wf, dstep, flattenC]

theorem loopC_wf_append (cs : List Cat) :
    ∀ (rest : List JValue) (fs : List Fairy) (d : JValue),
      loopC (cs.map catJ ++ rest) fs d =
        loopC rest (fs ++ cs.flatMap flattenC) (dComb d cs) := by
  induction cs with
  | nil => intro rest fs d; simp [dComb]
  | cons c cs' ih =>
    intro rest fs d
    simp only [List.map_cons, List.cons_append, loopC_catJ, ih, List.flatMap_cons, dComb,
      List.foldl_cons, List.append_assoc]

theorem catsPath_mk (l : List JValue) : catsPath (mkInputJ l) = some (.list l) := rfl

theorem parse_wf (cs : List Cat) :
    parse_fairies (mkInputC cs) =
      (sortFairies (cs.flatMap flattenC), dComb (.str []) cs) := by
  have h := loopC_wf_append cs [] [] (.str [])
  rw [List.append_nil] at h
  simp only [parse_fairies, mkInputC, catsPath_mk, pyIterTotal, h, loopC, List.nil_append]

theorem dstep_of_truthy (c : Cat) {d : JValue} (h : truthy d = true) : dstep d c = d := by
  simp [dstep, h]

theorem dComb_of_truthy (cs : List Cat) : ∀ {d : JValue}, truthy d = true → dComb d cs = d := by
  induction cs with
  | nil => intro d _; rfl
  | cons c cs' ih =>
    intro d h
    simp only [dComb, List.foldl_cons, dstep_of_truthy c h]
    exact ih h

theorem truthy_take8 (l : List Char) (h : 8 ≤ l.length) : truthy (.str (l.take 8)) = true := by
  cases hx : l.take 8 with
  | nil =>
    exfalso
    have hlen : (l.take 8).length = 0 := by rw [hx]; rfl
    rw [List.length_take] at hlen
    omega
  | cons a t => simp [truthy]

theorem dComb_empty (cs : List Cat) : dComb (.str []) cs = firstDate (cs.map Cat.label) := by
  induction cs with
  | nil => rfl
  | cons c cs' ih =>
    have hfalse : truthy (JValue.str []) = false := rfl
    by_cases hl : 8 ≤ c.label.length
    · simp only [dComb, List.foldl_cons, dstep, hfalse, Bool.false_eq_true, if_false, hl,
        if_true]
      rw [show (List.foldl dstep (JValue.str (c.label.take 8)) cs') =
            dComb (.str (c.label.take 8)) cs' from rfl,
        dComb_of_truthy cs' (truthy_take8 c.label hl)]
      simp only [firstDate, List.map_cons]
      rw [List.find?_cons_of_pos _ (by simpa using hl)]
    · simp only [dComb, List.foldl_cons, dstep, hfalse, Bool.false_eq_true, if_false, hl]
      rw [show (List.foldl dstep (JValue.str []) cs') = dComb (.str []) cs' from rfl, ih]
      simp only [firstDate, List.map_cons]
      rw [List.find?_cons_of_neg _ (by simpa using hl)]

theorem mem_insertF (f : Fairy) :
    ∀ (l : List Fairy) (x : Fairy), x ∈ insertF f l → x = f ∨ x ∈ l := by
  intro l
  induction l with
  | nil => intro x hx; simp only [insertF, List.mem_singleton] at hx; exact Or.inl hx
  | cons g gs ih =>
    intro x hx
    by_cases hlt : g.schedule.order < f.schedule.order
    · simp only [insertF, hlt, if_true, List.mem_cons] at hx
      rcases hx with hx | hx
      · exact Or.inr (by simp [hx])
      · rcases ih x hx with h | h
        · exact Or.inl h
        · exact Or.inr (by simp [h])
    · simp only [insertF, hlt, if_false, List.mem_cons] at hx
      rcases hx with hx | hx
      · exact Or.inl hx
      · exact Or.inr (by simp [hx])

theorem pairwise_insertF (f : Fairy) :
    ∀ (l : List Fairy),
      l.Pairwise (fun a b => a.schedule.order ≤ b.schedule.order) →
      (insertF f l).Pairwise (fun a b => a.schedule.order ≤ b.schedule.order) := by
  intro l
  induction l with
  | nil => intro _; simp [insertF]
  | cons g gs ih =>
    intro h
    rw [List.pairwise_cons] at h
    by_cases hlt : g.schedule.order < f.schedule.order
    · simp only [insertF, hlt, if_true]
      rw [List.pairwise_cons]
      refine ⟨?_, ih h.2⟩
      intro x hx
      rcases mem_insertF f gs x hx with hxf | hxm
      · subst hxf; exact Nat.le_of_lt hlt
      · exact h.1 x hxm
    · simp only [insertF, hlt, if_false]
      rw [List.pairwise_cons]
      refine ⟨?_, List.pairwise_cons.2 h⟩
      intro x hx
      rw [List.mem_cons] at hx
      rcases hx with hx | hx
      · subst hx; exact Nat.le_of_not_lt hlt
      · exact Nat.le_trans (Nat.le_of_not_lt hlt) (h.1 x hx)

theorem sortFairies_pairwise (l : List Fairy) :
    (sortFairies l).Pairwise (fun a b => a.schedule.order ≤ b.schedule.order) := by
  induction l with
  | nil => simp [sortFairies]
  | cons f fs ih => exact pairwise_insertF f (sortFairies fs) ih

theorem Schedule.order_inj : ∀ {s t : Schedule}, s.order = t.order → s = t := by
  intro s t
  cases s <;> cases t <;> decide

theorem filter_insertF (s : Schedule) (f : Fairy) :
    ∀ (l : List Fairy),
      (insertF f l).filter (fun g => decide (g.schedule = s)) =
        if f.schedule = s then f :: l.filter (fun g => decide (g.schedule = s))
        else l.filter (fun g => decide (g.schedule = s)) := by
  intro l
  induction l with
  | nil => by_cases hf : f.schedule = s <;> simp [insertF, hf]
  | cons g gs ih =>
    by_cases hlt : g.schedule.order < f.schedule.order
    · have hgf : ¬(g.schedule = s ∧ f.schedule = s) := by
        rintro ⟨hg, hf⟩
        rw [show g.schedule = f.schedule from hg.trans hf.symm] at hlt
        omega
      simp only [insertF, hlt, if_true]
      by_cases hf : f.schedule = s
      · have hg : ¬(g.schedule = s) := fun hg => hgf ⟨hg, hf⟩
        simp [List.filter_cons, hf, hg, ih]
      · by_cases hg : g.schedule = s <;> simp [List.filter_cons, hf, hg, ih]
    · simp only [insertF, hlt, if_false]
      by_cases hf : f.schedule = s <;> by_cases hg : g.schedule = s <;>
        simp [List.filter_cons, hf, hg]

theorem filter_sortFairies (s : Schedule) (l : List Fairy) :
    (sortFairies l).filter (fun g => decide (g.schedule = s)) =
      l.filter (fun g => decide (g.schedule = s)) := by
  induction l with
  | nil => rfl
  | cons f fs ih =>
    simp only [sortFairies, filter_insertF]
    by_cases hf : f.schedule = s <;> simp [List.filter_cons, hf, ih]

theorem filter_map_const (sch s : Schedule) (ns : List (List Char)) :
    (ns.map (fun n => (⟨.str n, sch⟩ : Fairy))).filter (fun g => decide (g.schedule = s)) =
      if sch = s then ns.map (fun n => (⟨.str n, sch⟩ : Fairy)) else [] := by
  induction ns with
  | nil => by_cases h : sch = s <;> simp [h]
  | cons n rest ih => by_cases h : sch = s <;> simp [List.filter_cons, h, ih]

theorem filter_flattenC (s : Schedule) (c : Cat) :
    (flattenC c).filter (fun g => decide (g.schedule = s)) = gsel s c := by
  simp only [flattenC, gsel, filter_map_const]

theorem filter_flatMap_cats (s : Schedule) :
    ∀ (cs : List Cat),
      (cs.flatMap flattenC).filter (fun g => decide (g.schedule = s)) =
        cs.flatMap (gsel s) := by
  intro cs
  induction cs with
  | nil => rfl
  | cons c cs' ih =>
    simp only [List.flatMap_cons, List.filter_append, filter_flattenC, ih]

theorem flatMap_gsel_perm (s : Schedule) :
    ∀ {l1 l2 : List Cat}, l1.Perm l2 →
      (l1.map (fun c => Schedule.from_name c.label)).Pairwise (· ≠ ·) →
      l1.flatMap (gsel s) = l2.flatMap (gsel s) := by
  intro l1 l2 h
  induction h with
  | nil => intro _; rfl
  | cons x h ih =>
    intro hp
    simp only [List.map_cons, List.pairwise_cons] at hp
    simp only [List.flatMap_cons, ih hp.2]
  | swap x y l =>
    intro hp
    simp only [List.map_cons, List.pairwise_cons] at hp
    have hxy : Schedule.from_name y.label ≠ Schedule.from_name x.label :=
      hp.1 (Schedule.from_name x.label) (by simp)
    simp only [List.flatMap_cons, ← List.append_assoc]
    congr 1
    by_cases hx : Schedule.from_name x.label = s
    · have hy : ¬(Schedule.from_name y.label = s) := fun hy => hxy (hy.trans hx.symm)
      simp [gsel, hx, hy]
    · simp [gsel, hx]
  | trans h1 _ ih1 ih2 =>
    intro hp
    rw [ih1 hp, ih2 (((h1.map _).pairwise_iff (fun h' => Ne.symm h')).mp hp)]

theorem insertF_cons_head (f : Fairy) (l : List Fairy)
    (h : ∀ g ∈ l, f.schedule.order ≤ g.schedule.order) : insertF f l = f :: l := by
  cases l with
  | nil => rfl
  | cons g gs =>
    have := h g (by simp)
    simp only [insertF, if_neg (by omega : ¬(g.schedule.order < f.schedule.order))]

theorem insertF_append_skip (f : Fairy) :
    ∀ (l1 l2 : List Fairy), (∀ g ∈ l1, g.schedule.order < f.schedule.order) →
      insertF f (l1 ++ l2) = l1 ++ insertF f l2 := by
  intro l1
  induction l1 with
  | nil => intro l2 _; rfl
  | cons g gs ih =>
    intro l2 h
    have hg := h g (by simp)
    simp only [List.cons_append, insertF, hg, if_true, List.append_eq]
    rw [ih l2 (fun x hx => h x (by simp [hx]))]

theorem mem_filter_schedule {s : Schedule} {l : List Fairy} {g : Fairy}
    (h : g ∈ l.filter (fun x => decide (x.schedule = s))) : g.schedule = s := by
  rw [List.mem_filter] at h
  simpa using h.2

theorem sortFairies_parts (l : List Fairy) :
    sortFairies l =
      l.filter (fun g => decide (g.schedule = .DAY))
        ++ l.filter (fun g => decide (g.schedule = .ALL))
        ++ l.filter (fun g => decide (g.schedule = .NIGHT)) := by
  induction l with
  | nil => rfl
  | cons f fs ih =>
    simp only [sortFairies, ih]
    cases hf : f.schedule with
    | DAY =>
      rw [List.append_assoc,
        insertF_cons_head f _ (by
          intro g _
          rw [hf]
          cases g.schedule <;> simp [Schedule.order])]
      simp [List.filter_cons, hf, List.append_assoc]
    | ALL =>
      rw [List.append_assoc,
        insertF_append_skip f _ _ (by
          intro g hg
          rw [mem_filter_schedule hg, hf]
          simp [Schedule.order]),
        insertF_cons_head f _ (by
          intro g hg
          rw [hf]
          rcases List.mem_append.1 hg with hg | hg
          · rw [mem_filter_schedule hg]
          · rw [mem_filter_schedule hg]; simp [Schedule.order])]
      simp [List.filter_cons, hf, List.append_assoc]
    | NIGHT =>
      rw [List.append_assoc,
        insertF_append_skip f _ _ (by
          intro g hg
          rw [mem_filter_schedule hg, hf]
          simp [Schedule.order]),
        insertF_append_skip f _ _ (by
          intro g hg
          rw [mem_filter_schedule hg, hf]
          simp [Schedule.order]),
        insertF_cons_head f _ (by
          intro g hg
          rw [hf, mem_filter_schedule hg])]
      simp [List.filter_cons, hf, List.append_assoc]

theorem foldl_line_append (fairies : List Fairy) :
    ∀ init : List Char,
      fairies.foldl
          (fun acc f => acc ++ pyStr f.name ++ " ".data ++ f.schedule.emoji ++ "\n".data)
          init =
        init ++ fairies.flatMap
          (fun f => pyStr f.name ++ " ".data ++ f.schedule.emoji ++ "\n".data) := by
  induction fairies with
  | nil => intro init; simp
  | cons f fs ih =>
    intro init
    rw [List.foldl_cons, List.flatMap_cons, ih]
    simp [List.append_assoc]

/-! ### Claim theorems -/

/-- C1, counterexample: the label 午安午晚安 contains the compound
keyword 午晚安 (and also the daytime keyword 午安), yet
Schedule.from_name maps it to DAY, not to the combined category ALL:
the enum is iterated DAY first, so the daytime keyword wins. -/
theorem c1_counterexample :
    Schedule.from_name "午安午晚安".data = Schedule.DAY
      ∧ containsSub "午安午晚安".data Schedule.ALL.keyword = true
      ∧ containsSub "午安午晚安".data Schedule.DAY.keyword = true
      ∧ Schedule.DAY ≠ Schedule.ALL := by
  refine ⟨rfl, rfl, rfl, by decide⟩

/-- C1, amended: Schedule.from_name tests keyword containment in enum
order DAY (午安), ALL (午晚安), NIGHT (晚安) — so the daytime keyword is
tested BEFORE the compound keyword: a label containing 午安 maps to
DAY even when it also contains 午晚安; a label containing 午晚安 but
not 午安 maps to the combined category ALL; and a label containing
neither keyword maps to NIGHT (whether or not it contains 晚安). -/
theorem c1_amended (name : List Char) :
    Schedule.from_name name =
      (if containsSub name Schedule.DAY.keyword then .DAY
       else if containsSub name Schedule.ALL.keyword then .ALL
       else .NIGHT) := by
  by_cases h1 : containsSub name Schedule.DAY.keyword <;>
    by_cases h2 : containsSub name Schedule.ALL.keyword <;>
      by_cases h3 : containsSub name Schedule.NIGHT.keyword <;>
        simp [Schedule.from_name, Schedule.values, fromNameGo, h1, h2, h3]

/-- C2, counterexample: on input whose second category is malformed
(an object without the name key) after a well-formed first category,
_parse_fairies returns the PARTIAL roster and date accumulated before
the exception — not an empty roster and empty date as claimed. -/
theorem c2_counterexample :
    parse_fairies (mkInputJ [catJ ⟨"20240615午安".data, some ["Alice".data]⟩, .obj []]) =
        ([⟨.str "Alice".data, .DAY⟩], .str "20240615".data)
      ∧ (parse_fairies
          (mkInputJ [catJ ⟨"20240615午安".data, some ["Alice".data]⟩, .obj []])).1 ≠ [] := by
  refine ⟨rfl, ?_⟩
  show [(⟨.str "Alice".data, .DAY⟩ : Fairy)] ≠ []
  simp

/-- C2, amended: the parser never lets KeyError/TypeError escape, but
failure is NOT all-or-nothing: a malformation located before anything
was accumulated (top-level path broken, or the category list not
iterable) yields the empty roster and empty date, while a malformed
category after well-formed ones yields the partially accumulated
(unsorted) roster and the date accumulated so far. -/
theorem c2_amended :
    (∀ data, catsPath data = none → parse_fairies data = ([], .str []))
      ∧ (∀ data catsV, catsPath data = some catsV → pyIterTotal catsV = none →
          parse_fairies data = ([], .str []))
      ∧ (∀ (pre : List Cat) (post : List JValue),
          parse_fairies (mkInputJ (pre.map catJ ++ .obj [] :: post)) =
            (pre.flatMap flattenC, firstDate (pre.map Cat.label))) := by
  refine ⟨?_, ?_, ?_⟩
  · intro data h
    simp [parse_fairies, h]
  · intro data catsV h1 h2
    simp [parse_fairies, h1, h2]
  · intro pre post
    have h := loopC_wf_append pre (.obj [] :: post) [] (.str [])
    simp only [parse_fairies, catsPath_mk, pyIterTotal, h, List.nil_append]
    have habort : loopC (JValue.obj [] :: post) (pre.flatMap flattenC)
        (dComb (.str []) pre) = .aborted (pre.flatMap flattenC) (dComb (.str []) pre) := rfl
    rw [habort, dComb_empty]

/-- C2, witness for the amended theorem at a concrete input: parsing a
null top-level value (path extraction fails) yields empty results. -/
theorem c2_witness :
    catsPath .null = none ∧ parse_fairies .null = ([], .str []) :=
  ⟨rfl, c2_amended.1 .null rfl⟩

/-- C3, counterexample: a dataset whose first category label starts
with eight non-digit characters produces a nonempty roster and a
non-numeric date, and run_once raises an uncaught ValueError at
int(date) — the cycle does NOT complete for every fetched dataset
(in the continuous loop this exception ends the loop via main's
top-level handler). -/
theorem c3_counterexample :
    run_once ⟨false, mkInputC [⟨"ABCDEFGH午安".data, some ["Alice".data]⟩],
        20240101, false, true⟩ = .error .valueError
      ∧ ∀ r : CycleResult,
          run_once ⟨false, mkInputC [⟨"ABCDEFGH午安".data, some ["Alice".data]⟩],
            20240101, false, true⟩ ≠ .ok r :=
  ⟨rfl, fun _ h => Except.noConfusion h⟩

/-- C3, amended: run_once completes without an uncaught exception
provided the cycle either exits early (empty roster or falsy date) or
the extracted date converts with int() — fetch, parse and delivery
failures are then all absorbed; only a non-numeric extracted date
raises (ValueError/TypeError from int(date)). -/
theorem c3_amended (env : Env)
    (h : (get_fairies env).1 = [] ∨ truthy (get_fairies env).2 = false
      ∨ ∃ n, pyInt (get_fairies env).2 = .ok n) :
    ∃ r, run_once env = .ok r := by
  by_cases hg : ((get_fairies env).1.isEmpty || !truthy (get_fairies env).2) = true
  · exact ⟨⟨none, none⟩, by simp only [run_once, hg, if_true]⟩
  · rcases h with h | h | ⟨n, hn⟩
    · exact absurd (by simp [h]) hg
    · exact absurd (by simp [h]) hg
    · simp only [run_once, hg, if_false, hn, Bool.false_eq_true]
      split
      · exact ⟨_, rfl⟩
      · split
        · exact ⟨_, rfl⟩
        · exact ⟨_, rfl⟩

/-- C3, witness: the amended theorem applied to the no-data cycle. -/
theorem c3_witness :
    (get_fairies ⟨true, .null, 0, false, false⟩).1 = []
      ∧ ∃ r, run_once ⟨true, .null, 0, false, false⟩ = .ok r :=
  ⟨rfl, c3_amended ⟨true, .null, 0, false, false⟩ (Or.inl rfl)⟩

/-- C4, counterexample: a record file holding valid JSON that is not an
object (here the empty array) is corrupt in the claim's sense, yet the
new-day check raises AttributeError (record.get on a list) instead of
returning true — only JSONDecodeError and ValueError are caught. -/
theorem c4_counterexample :
    is_new_day (.json (.list [])) 20240101 = .error .attributeError
      ∧ ∀ b : Bool, is_new_day (.json (.list [])) 20240101 ≠ .ok b :=
  ⟨rfl, fun _ h => Except.noConfusion h⟩

/-- C4, amended: should_send is the conjunction of the new-day check
and the time-window check, and the new-day check returns true when the
record file is missing, when its content is not decodable JSON, or
when the stored date (an int, or a string parsed by int(), the only
shapes the program itself writes) is strictly less than today's
YYYYMMDD number, with an unparseable date string also treated as a new
day; it returns false once the stored date is today's (or later), so
no second delivery is attempted that day regardless of the time
window. A valid-JSON non-object record, or a date field that is
neither int nor string, instead raises (AttributeError/TypeError). -/
theorem c4_amended (today : Int) (dt : DT) :
    (is_new_day .missing today = .ok true)
      ∧ (is_new_day .invalidJson today = .ok true)
      ∧ (∀ n : Int, is_new_day (.json (.obj [("date".data, .num n)])) today =
          .ok (decide (n < today)))
      ∧ (∀ s n, pyIntOfStr s = some n →
          is_new_day (.json (.obj [("date".data, .str s)])) today = .ok (decide (n < today)))
      ∧ (∀ s, pyIntOfStr s = none →
          is_new_day (.json (.obj [("date".data, .str s)])) today = .ok true)
      ∧ (∀ rec b, is_new_day rec today = .ok b →
          should_send rec today dt = .ok (b && is_send_time dt))
      ∧ (∀ s, pyIntOfStr s = some today →
          should_send (.json (.obj [("date".data, .str s)])) today dt = .ok false) := by
  refine ⟨rfl, rfl, ?_, ?_, ?_, ?_, ?_⟩
  · intro n; rfl
  · intro s n h
    simp [is_new_day, lookupF, pyInt, h]
  · intro s h
    simp [is_new_day, lookupF, pyInt, h]
  · intro rec b h
    simp [should_send, h]
  · intro s h
    have h1 : is_new_day (.json (.obj [("date".data, .str s)])) today = .ok false := by
      simp [is_new_day, lookupF, pyInt, h]
    simp [should_send, h1]

/-- C4, witness: no record is eligible; a record stored today blocks a
second send even inside the weekday send window (Tuesday 13:45). -/
theorem c4_witness :
    is_new_day .missing 20240615 = .ok true
      ∧ should_send (.json (.obj [("date".data, .str "20240615".data)]))
          20240615 ⟨1, 13, 45⟩ = .ok false :=
  ⟨(c4_amended 20240615 ⟨1, 13, 45⟩).1,
    (c4_amended 20240615 ⟨1, 13, 45⟩).2.2.2.2.2.2 "20240615".data (by decide)⟩

/-- C5: the time-window check holds on a weekday exactly at hour 13
with minute > 40 or hour 14 with minute < 59, and on a weekend exactly
at hour 11 with minute > 40 or hour 12 with minute < 59; outside the
window should_send never evaluates to true, whatever the record. -/
theorem c5_send_window (dt : DT) :
    (is_send_time dt = true ↔
        (if 5 ≤ dt.weekday.val
         then (dt.hour = 11 ∧ 40 < dt.minute) ∨ (dt.hour = 12 ∧ dt.minute < 59)
         else (dt.hour = 13 ∧ 40 < dt.minute) ∨ (dt.hour = 14 ∧ dt.minute < 59)))
      ∧ (is_send_time dt = false →
          ∀ (rec : RecordFile) (today : Int), should_send rec today dt ≠ .ok true) := by
  constructor
  · by_cases hw : 5 ≤ dt.weekday.val <;>
      simp [is_send_time, hw, Bool.or_eq_true, Bool.and_eq_true, beq_iff_eq,
        decide_eq_true_eq]
  · intro h rec today
    cases hnd : is_new_day rec today with
    | error e => simp [should_send, hnd]
    | ok nd => simp [should_send, hnd, h]

/-- C5, witness: Saturday 13:45 is outside the weekend window, so
should_send is not true there even with no record on file. -/
theorem c5_witness :
    is_send_time ⟨5, 13, 45⟩ = false
      ∧ should_send .missing 20240101 ⟨5, 13, 45⟩ ≠ .ok true :=
  ⟨by decide, (c5_send_window ⟨5, 13, 45⟩).2 (by decide) .missing 20240101⟩

/-- C6: in one run_once cycle the record is written exactly when a
delivery was attempted and send_message confirmed success, it is
written with the fetched RosterDate, a fetched date numerically
earlier than today skips the cycle with no attempt and no write, and a
failed delivery leaves the record unchanged (an .error outcome aborts
before any attempt or write, since int(date) precedes both). -/
theorem c6_record_write (env : Env) (r : CycleResult) (h : run_once env = .ok r) :
    (r.recordWrite.isSome = true ↔ (r.sent.isSome = true ∧ env.sendOk = true))
      ∧ (∀ d : Int, pyInt (get_fairies env).2 = .ok d → d < env.today → r = ⟨none, none⟩)
      ∧ (env.sendOk = false → r.recordWrite = none)
      ∧ (∀ dj, r.recordWrite = some dj → dj = (get_fairies env).2 ∧ r.sent.isSome = true) := by
  simp only [run_once] at h
  split at h
  next hg =>
    injection h with h'
    subst h'
    refine ⟨by simp, fun d _ _ => rfl, fun _ => rfl, fun dj hdj => by simp at hdj⟩
  next hg =>
    split at h
    next e heq => simp at h
    next d heq =>
      split at h
      next hlt =>
        injection h with h'
        subst h'
        refine ⟨by simp, fun d' _ _ => rfl, fun _ => rfl, fun dj hdj => by simp at hdj⟩
      next hnlt =>
        split at h
        next hs =>
          injection h with h'
          subst h'
          refine ⟨by simp [hs], ?_, ?_, ?_⟩
          · intro d' hd' hlt'
            rw [heq] at hd'
            injection hd' with hdd
            subst hdd
            exact absurd hlt' hnlt
          · intro hfalse
            exact absurd (hs.symm.trans hfalse) (by simp)
          · intro dj hdj
            injection hdj with hdj'
            exact ⟨hdj'.symm, rfl⟩
        next hs =>
          rw [Bool.not_eq_true] at hs
          injection h with h'
          subst h'
          refine ⟨by simp [hs], ?_, fun _ => rfl, fun dj hdj => by simp at hdj⟩
          intro d' hd' hlt'
          rw [heq] at hd'
          injection hd' with hdd
          subst hdd
          exact absurd hlt' hnlt

/-- C6, witness: the no-data cycle (empty uuid list) attempts nothing
and writes nothing, satisfying the write-iff-confirmed-send relation. -/
theorem c6_witness :
    run_once ⟨true, .null, 0, false, false⟩ = .ok ⟨none, none⟩
      ∧ ((⟨none, none⟩ : CycleResult).recordWrite.isSome = true ↔
          ((⟨none, none⟩ : CycleResult).sent.isSome = true
            ∧ (⟨true, .null, 0, false, false⟩ : Env).sendOk = true)) :=
  ⟨rfl, (c6_record_write ⟨true, .null, 0, false, false⟩ ⟨none, none⟩ rfl).1⟩

/-- C7: on well-formed input the returned roster is sorted ascending
by shift-category order; it is stable (for each category the
subsequence of persons with that category equals the corresponding
subsequence of the raw extraction, i.e. input order is preserved among
equals); and for categories with pairwise distinct shift
classifications the roster is invariant under any permutation of the
input categories. -/
theorem c7_sorted_stable (cs1 cs2 : List Cat) (hperm : cs1.Perm cs2)
    (hdist : (cs1.map (fun c => Schedule.from_name c.label)).Pairwise (· ≠ ·)) :
    ((parse_fairies (mkInputC cs1)).1.Pairwise
        (fun a b => a.schedule.order ≤ b.schedule.order))
      ∧ (∀ s : Schedule,
          (parse_fairies (mkInputC cs1)).1.filter (fun g => decide (g.schedule = s)) =
            (cs1.flatMap flattenC).filter (fun g => decide (g.schedule = s)))
      ∧ (parse_fairies (mkInputC cs1)).1 = (parse_fairies (mkInputC cs2)).1 := by
  have h1 : (parse_fairies (mkInputC cs1)).1 = sortFairies (cs1.flatMap flattenC) := by
    rw [parse_wf]
  have h2 : (parse_fairies (mkInputC cs2)).1 = sortFairies (cs2.flatMap flattenC) := by
    rw [parse_wf]
  refine ⟨?_, ?_, ?_⟩
  · rw [h1]; exact sortFairies_pairwise _
  · intro s; rw [h1]; exact filter_sortFairies s _
  · rw [h1, h2, sortFairies_parts, sortFairies_parts,
      filter_flatMap_cats, filter_flatMap_cats, filter_flatMap_cats,
      filter_flatMap_cats, filter_flatMap_cats, filter_flatMap_cats,
      flatMap_gsel_perm Schedule.DAY hperm hdist,
      flatMap_gsel_perm Schedule.ALL hperm hdist,
      flatMap_gsel_perm Schedule.NIGHT hperm hdist]

/-- C7, witness: the spec's scenario — categories in shift order
Night, Day, All give the same roster as the same categories with the
first two swapped. -/
theorem c7_witness :
    ([⟨"20240615晚安".data, some ["Bob".data]⟩,
      ⟨"0615午安".data, some ["Alice".data]⟩,
      ⟨"0615午晚安".data, some ["Eve".data]⟩] : List Cat).Perm
        [⟨"0615午安".data, some ["Alice".data]⟩,
         ⟨"20240615晚安".data, some ["Bob".data]⟩,
         ⟨"0615午晚安".data, some ["Eve".data]⟩]
      ∧ (parse_fairies (mkInputC
            [⟨"20240615晚安".data, some ["Bob".data]⟩,
             ⟨"0615午安".data, some ["Alice".data]⟩,
             ⟨"0615午晚安".data, some ["Eve".data]⟩])).1 =
          (parse_fairies (mkInputC
            [⟨"0615午安".data, some ["Alice".data]⟩,
             ⟨"20240615晚安".data, some ["Bob".data]⟩,
             ⟨"0615午晚安".data, some ["Eve".data]⟩])).1 :=
  ⟨List.Perm.swap _ _ _,
    (c7_sorted_stable _ _ (List.Perm.swap _ _ _) (by decide)).2.2⟩

/-- C8: on well-formed input, the RosterDate is the first 8 characters
of the first category label (in input order) whose length is at least
8; later labels never overwrite it, and it is empty exactly when no
label has length at least 8. -/
theorem c8_first_date (cs : List Cat) :
    (parse_fairies (mkInputC cs)).2 = firstDate (cs.map Cat.label) := by
  rw [parse_wf]
  exact dComb_empty cs

/-- C9: format_message is exactly the header line with the date and
fixed label, one line per person (name verbatim, space, emoji) in
roster order, one of two fixed operating-hours literals chosen solely
by the weekend flag, and the fixed disclaimer plus ordering URL. -/
theorem c9_format (fairies : List Fairy) (d : List Char) (w : Bool) :
    (format_message fairies (.str d) w =
        (d ++ " 出勤的小精靈有：\n\n".data)
          ++ fairies.flatMap
              (fun f => pyStr f.name ++ " ".data ++ f.schedule.emoji ++ "\n".data)
          ++ (get_opening_hours w
            ++ "實際班表以現場為準\n\n線上點拍連結：\nhttps://order.lefiya.com".data))
      ∧ (∀ s : List Char, pyStr (.str s) = s)
      ∧ get_opening_hours true =
          "\n今日營運時間：\n☀️：12:00 ~ 17:00\n🌍：12:00 ~ 22:00\n🌙：17:00 ~ 22:00\n".data
      ∧ get_opening_hours false =
          "\n今日營運時間：\n☀️：14:00 ~ 18:00\n🌍：14:00 ~ 22:00\n🌙：18:00 ~ 22:00\n".data := by
  refine ⟨?_, fun s => rfl, rfl, rfl⟩
  simp only [format_message]
  rw [foldl_line_append]
  simp [pyStr, List.append_assoc]

/-- C10: a category without the menuItemSnapshot key is tolerated: it
contributes zero persons, its label still participates in date
extraction (and its classification is computed without effect), and
every other category's persons are returned as usual. -/
theorem c10_missing_snapshot (pre : List Cat) (lbl : List Char) (post : List Cat) :
    parse_fairies (mkInputC (pre ++ ⟨lbl, none⟩ :: post)) =
      (sortFairies ((pre ++ post).flatMap flattenC),
        firstDate ((pre ++ ⟨lbl, none⟩ :: post).map Cat.label)) := by
  rw [parse_wf, dComb_empty]
  congr 1
  simp [List.flatMap_append, List.flatMap_cons, flattenC]

end LefiyaBot
